import Mathlib

/-!
Shallow embedding of the core pipeline of `src/main.py` (an Excel
reconciliation tool: header detection, keyword column resolution, key
normalization, option-id join, fallback name/code resolution, unit-price
computation, grouping/aggregation and output formatting).

Modelling conventions:
* A pandas cell is `Option String`: `none` is NaN (a missing cell), `some s`
  is a string cell.  Python `str(...)` applied to a NaN cell produces the
  string "nan", modelled by `py_str`.
* Excel reading (`pd.read_excel`) is an external collaborator; the model
  starts from the raw grid (for header detection) or from the typed table
  `DF` (columns plus rows) that reading produces.
* Python floats are modelled as `ℚ`.  The arithmetic used by the pipeline is
  given by executable operations (`qAdd`, `qSub`, `qDiv`, `qAbs`) that are
  proved equal to the mathematical operations on `ℚ`.
* Python `str.lower()` is modelled on the ASCII range (`lowerChar`), matching
  the behaviour of `.lower()` on the ASCII letters; the Korean characters in
  the data are unaffected by lowercasing in both.
-/

/-- The zero-width-space character removed by `_norm` (main.py line 35). -/
def zwspChar : Char := '​'

/-- The byte-order-mark character removed by `_norm` (main.py line 35). -/
def bomChar : Char := '﻿'

/-- ASCII lower-casing of one character, the model of Python `str.lower()`
per character (non-ASCII characters, e.g. Korean, are unchanged). -/
def lowerChar (c : Char) : Char :=
  if 65 ≤ c.toNat ∧ c.toNat ≤ 90 then Char.ofNat (c.toNat + 32) else c

/-- Conversion of a possibly missing cell to a string: Python `str(x)` maps
NaN to the string "nan" and is the identity on strings. -/
def py_str : Option String → String
  | none => "nan"
  | some s => s

/-- Does the first list occur as a leading segment of the second list? -/
def strStarts : List Char → List Char → Bool
  | [], _ => true
  | _ :: _, [] => false
  | a :: as, b :: bs => a == b && strStarts as bs

/-- Does `nee` occur as a contiguous run inside `hay`?  Model of Python
`nee in hay` on strings. -/
def hasSub (nee : List Char) : List Char → Bool
  | [] => nee.isEmpty
  | c :: rest => strStarts nee (c :: rest) || hasSub nee rest

/-- String containment test, Python `nee in hay`. -/
def strContains (hay nee : String) : Bool :=
  hasSub nee.toList hay.toList

/-- The character filter and lower-casing of `_norm` on a character list:
first the zero-width space / BOM removal (`.replace` calls, main.py line 35),
then the whitespace removal (`re.sub(r"\s+", "", s)`, line 36), then
lower-casing (line 37). -/
def normChars (l : List Char) : List Char :=
  ((l.filter (fun c => !(c == zwspChar || c == bomChar))).filter
      (fun c => !c.isWhitespace)).map lowerChar

/-- `_norm` (main.py lines 32-37): header-detection/key-mapping
normalization, stripping zero-width-space and BOM characters, removing all
whitespace and lower-casing. -/
def norm (s : String) : String :=
  String.mk (normChars s.toList)

/-- Python `str.strip()`: remove whitespace from both ends. -/
def charTrim (l : List Char) : List Char :=
  ((l.dropWhile Char.isWhitespace).reverse.dropWhile Char.isWhitespace).reverse

/-- `.str.strip()` at the string level. -/
def strTrim (s : String) : String :=
  String.mk (charTrim s.toList)

/-- Full-string ASCII lower-casing, the model of Python `str.lower()`. -/
def lowerStr (s : String) : String :=
  String.mk (s.toList.map lowerChar)

/-- `_name_sort_key` (main.py lines 47-49) applied to one cell:
`series.astype(str).str.lower()`. -/
def name_sort_key (c : Option String) : String :=
  lowerStr (py_str c)

/-- Lexicographic (code-point) comparison of character lists, the order
Python uses to compare strings. -/
def charListLe : List Char → List Char → Bool
  | [], _ => true
  | _ :: _, [] => false
  | a :: as, b :: bs =>
    if a < b then true else if b < a then false else charListLe as bs

/-- String order used by the final sort. -/
def strLe (a b : String) : Bool :=
  charListLe a.toList b.toList

/-! ### Executable rational arithmetic

The pipeline computes with floats (modelled as `ℚ`).  The `Rat` field
operations of the library are `@[irreducible]`, so the model uses its own
executable forms, each proved equal to the mathematical operation. -/

/-- Executable addition on `ℚ`. -/
def qAdd (a b : ℚ) : ℚ :=
  mkRat (a.num * b.den + b.num * a.den) (a.den * b.den)

/-- Executable subtraction on `ℚ`. -/
def qSub (a b : ℚ) : ℚ :=
  mkRat (a.num * b.den - b.num * a.den) (a.den * b.den)

/-- Executable division on `ℚ`. -/
def qDiv (a b : ℚ) : ℚ :=
  Rat.divInt (a.num * b.den) (a.den * b.num)

/-- Executable absolute value on `ℚ`, the model of `Series.abs()`. -/
def qAbs (a : ℚ) : ℚ :=
  if a < 0 then Rat.neg a else a

/-- Executable sum of a list of rationals, the model of `Series.sum()`. -/
def qSum (l : List ℚ) : ℚ :=
  l.foldr qAdd 0

/-- Round-half-to-even on `ℚ`, the rounding convention of
`Series.round()` (numpy banker's rounding), producing an integer as the
subsequent `.astype(int)` does. -/
def roundHalfEven (x : ℚ) : ℤ :=
  let f := x.floor
  let frac := qSub x (mkRat f 1)
  if frac < mkRat 1 2 then f
  else if mkRat 1 2 < frac then f + 1
  else if f % 2 = 0 then f else f + 1

/-- Unit price computation (main.py lines 138-148): take absolute amount and
absolute quantity; where the absolute quantity exceeds 1, divide, otherwise
keep the absolute amount; round and convert to integer. -/
def unitPrice (amount qty : ℚ) : ℤ :=
  let amount_abs := qAbs amount
  let qty_abs := qAbs qty
  let up := if 1 < qty_abs then qDiv amount_abs qty_abs else amount_abs
  roundHalfEven up

/-! ### Numeric coercion (`_to_number`, main.py lines 59-65) -/

/-- Value of a digit list read in base 10. -/
def digitsToNat (l : List Char) : Nat :=
  l.foldl (fun acc c => 10 * acc + (c.toNat - 48)) 0

/-- Parse an unsigned decimal literal as Python `float` does on strings made
of digits, at most one dot, and at least one digit. -/
def parseUnsigned (l : List Char) : Option ℚ :=
  let sp := l.span (fun c => !(c == '.'))
  match sp.2 with
  | [] =>
    if l.all Char.isDigit && !l.isEmpty then some (mkRat (digitsToNat l) 1) else none
  | _ :: after =>
    if after.contains '.' then none
    else if (sp.1 ++ after).all Char.isDigit && !(sp.1 ++ after).isEmpty then
      some (mkRat (digitsToNat (sp.1 ++ after)) (10 ^ after.length))
    else none

/-- Parse an optionally negated decimal literal, Python `float(...)` on the
character set remaining after `_to_number`'s stripping. -/
def parseDec (l : List Char) : Option ℚ :=
  match l with
  | '-' :: rest => (parseUnsigned rest).map Rat.neg
  | _ => parseUnsigned l

/-- Pipeline failures: a required column could not be resolved (carrying the
attempted keywords and the available column labels, main.py line 57), or a
cell failed numeric coercion (`astype(float)` raising, line 64). -/
inductive BuildErr where
  | colNotFound (keywords : List String) (columns : List String)
  | numParse
deriving DecidableEq

/-- `_to_number` on one cell (main.py lines 59-65): stringify, keep only
digits, `.` and `-`, map the empty remainder to 0, parse as a float;
an unparsable remainder makes `astype(float)` raise, which is fatal. -/
def to_number (c : Option String) : Except BuildErr ℚ :=
  let cleaned := (py_str c).toList.filter (fun ch => ch.isDigit || ch == '.' || ch == '-')
  if cleaned.isEmpty then .ok 0
  else
    match parseDec cleaned with
    | some q => .ok q
    | none => .error .numParse

/-! ### Tables, header detection and column resolution -/

/-- A typed table after reading: ordered column labels and rows of cells. -/
structure DF where
  cols : List String
  rows : List (List (Option String))
deriving DecidableEq

/-- `_find_col` (main.py lines 51-57): scan the columns in table order and
return the first one whose normalized label contains the normalization of
any of the given keywords; otherwise fail carrying the keywords and the
full column list. -/
def find_col (df : DF) (kws : List String) : Except BuildErr String :=
  match df.cols.find? (fun c => kws.any (fun kw => strContains (norm c) (norm kw))) with
  | some c => .ok c
  | none => .error (.colNotFound kws df.cols)

/-- Cell access `row[label]` through the column list. -/
def getCell (df : DF) (row : List (Option String)) (c : String) : Option String :=
  match df.cols.findIdx? (fun x => x == c) with
  | some i => row.getD i none
  | none => none

/-- One row of the raw grid matches when any normalized keyword is a
substring of any normalized cell (main.py line 80). -/
def rowMatches (targets : List String) (row : List (Option String)) : Bool :=
  targets.any (fun t => row.any (fun cell => strContains (norm (py_str cell)) t))

/-- The header-detection loop of `_read_with_header_detection` (main.py
lines 76-82): the index of the first row among the first
`min searchRows (raw.length)` rows that matches, defaulting to 0. -/
def header_idx (raw : List (List (Option String))) (kws : List String)
    (searchRows : Nat) : Nat :=
  let targets := kws.map norm
  ((List.range (min searchRows raw.length)).find?
      (fun i => rowMatches targets (raw.getD i []))).getD 0

/-! ### Join (main.py lines 117-120) -/

/-- `pd.merge(df_main, df_map[...], on = key, how = "left")`: every main row
paired with each mapping row of equal key, in mapping-table order, or with
`none` when no mapping row has the key. -/
def leftMerge {α β : Type} (mainRows : List α) (mapRows : List β)
    (mainKey : α → String) (mapKey : β → String) : List (α × Option β) :=
  mainRows.flatMap (fun r =>
    if (mapRows.filter (fun m => mapKey m == mainKey r)).isEmpty then [(r, none)]
    else (mapRows.filter (fun m => mapKey m == mainKey r)).map (fun m => (r, some m)))

/-! ### Fallback resolution (main.py lines 126-136) -/

/-- `fallback_mask` (main.py line 130): the mapped name is NaN, or blank
once stringified and stripped. -/
def fallback_mask (mapped_name : Option String) : Bool :=
  mapped_name.isNone || (strTrim (py_str mapped_name) == "")

/-- `final_name` (main.py lines 132-133): the registered product name on
fallback rows, the mapped name otherwise. -/
def final_name (mapped_name reg_name : Option String) : Option String :=
  if fallback_mask mapped_name then reg_name else mapped_name

/-- `final_code` (main.py lines 135-136): the stringified raw option id on
fallback rows, the mapped code otherwise. -/
def final_code (mapped_name mapped_code raw_optid : Option String) : Option String :=
  if fallback_mask mapped_name then some (py_str raw_optid) else mapped_code

/-! ### The mid table (main.py lines 150-162) and aggregation (164-176) -/

/-- One row of the intermediate table `mid`. -/
structure MidRow where
  date : Option String
  cpty : String
  code : String
  name : Option String
  qty : ℚ
  price : ℤ
  remark : String
  fb : Bool
  neg : Bool
deriving DecidableEq

/-- The five resolved main-table columns (main.py lines 107-111). -/
structure MainCols where
  optid : String
  date : String
  qty : String
  price : String
  regnm : String
deriving DecidableEq

/-- The three resolved mapping-table columns (main.py lines 113-115). -/
structure MapCols where
  optid2 : String
  code : String
  name : String
deriving DecidableEq

/-- The keyword lists tried for the five required main-table fields. -/
def mainKeywordSets : List (List String) :=
  [["옵션id", "optionid"], ["매출인식일"], ["판매수량", "수량"],
   ["정산대상액", "정산 대상액"], ["등록상품명"]]

/-- The keyword lists tried for the three required mapping-table fields. -/
def mapKeywordSets : List (List String) :=
  [["옵션id", "optionid"], ["코드", "상품코드"], ["윈윈상품명", "윈윈 상품명"]]

/-- Resolution of the five required main-table columns, aborting on the
first failure (main.py lines 107-111). -/
def resolve_main (df : DF) : Except BuildErr MainCols := do
  let c1 ← find_col df ["옵션id", "optionid"]
  let c2 ← find_col df ["매출인식일"]
  let c3 ← find_col df ["판매수량", "수량"]
  let c4 ← find_col df ["정산대상액", "정산 대상액"]
  let c5 ← find_col df ["등록상품명"]
  .ok ⟨c1, c2, c3, c4, c5⟩

/-- Resolution of the three required mapping-table columns (main.py lines
113-115). -/
def resolve_map (df : DF) : Except BuildErr MapCols := do
  let c1 ← find_col df ["옵션id", "optionid"]
  let c2 ← find_col df ["코드", "상품코드"]
  let c3 ← find_col df ["윈윈상품명", "윈윈 상품명"]
  .ok ⟨c1, c2, c3⟩

/-- Steps 5-8 of `build_result` for one joined row: numeric coercion of
quantity and settlement amount, fallback resolution, unit price, and the
constant counterparty, remark and sign-flag columns of `mid`. -/
def mkMid (dfMain dfMap : DF) (mc : MainCols) (pc : MapCols)
    (p : List (Option String) × Option (List (Option String))) :
    Except BuildErr MidRow := do
  let r := p.1
  let qty ← to_number (getCell dfMain r mc.qty)
  let amount ← to_number (getCell dfMain r mc.price)
  let mapped_name := p.2.bind (fun m => getCell dfMap m pc.name)
  let mapped_code := p.2.bind (fun m => getCell dfMap m pc.code)
  let raw_optid := getCell dfMain r mc.optid
  .ok {
    date := getCell dfMain r mc.date,
    cpty := "쿠팡-제트배송",
    code := py_str (final_code mapped_name mapped_code raw_optid),
    name := final_name mapped_name (getCell dfMain r mc.regnm),
    qty := qty,
    price := unitPrice amount qty,
    remark := "",
    fb := fallback_mask mapped_name,
    neg := decide (qty < 0) }

/-- Elementwise computation over the joined rows in the `Except` monad: the
columnwise pandas operations of steps 5-8, where a coercion failure aborts
the whole build. -/
def exceptMap {α β : Type} (f : α → Except BuildErr β) :
    List α → Except BuildErr (List β)
  | [] => .ok []
  | x :: xs => do
    let y ← f x
    let ys ← exceptMap f xs
    .ok (y :: ys)

/-- The grouping key of main.py line 166: code, unit price and quantity
sign. -/
def groupKey (r : MidRow) : String × ℤ × Bool :=
  (r.code, r.price, r.neg)

/-- First-occurrence deduplication of the key list. -/
def dedupAux (seen : List (String × ℤ × Bool)) :
    List (String × ℤ × Bool) → List (String × ℤ × Bool)
  | [] => []
  | k :: rest => if k ∈ seen then dedupAux seen rest else k :: dedupAux (k :: seen) rest

/-- The distinct grouping keys. -/
def dedupKeys (l : List (String × ℤ × Bool)) : List (String × ℤ × Bool) :=
  dedupAux [] l

/-- pandas `GroupBy.first`: the first non-null entry of a column within a
group (NA entries are skipped). -/
def firstSome : List (Option String) → Option String
  | [] => none
  | some x :: _ => some x
  | none :: t => firstSome t

/-- One aggregation bucket (one row of `grouped`, main.py lines 165-176). -/
structure Bucket where
  code : String
  price : ℤ
  neg : Bool
  qty_sum : ℚ
  name_first : Option String
  date_first : Option String
  cpty_first : String
  remark_first : String
  fb_any : Bool
deriving DecidableEq

/-- The rows of a group, in original row order. -/
def groupOf (rows : List MidRow) (k : String × ℤ × Bool) : List MidRow :=
  rows.filter (fun r => decide (groupKey r = k))

/-- The aggregations of main.py lines 167-174: summed quantity, `first` of
the non-summed columns (`cpty` and `remark` never hold NaN, so `first` on
them is the leading entry), and `max` (that is, OR) of the fallback flags. -/
def mkBucket (rows : List MidRow) (k : String × ℤ × Bool) : Bucket :=
  let g := groupOf rows k
  { code := k.1,
    price := k.2.1,
    neg := k.2.2,
    qty_sum := qSum (g.map MidRow.qty),
    name_first := firstSome (g.map MidRow.name),
    date_first := firstSome (g.map MidRow.date),
    cpty_first := (g.map MidRow.cpty).headD "",
    remark_first := (g.map MidRow.remark).headD "",
    fb_any := g.any MidRow.fb }

/-- `mid.groupby([code, price, sign]).agg(...)` (main.py lines 165-176).
pandas lists the groups sorted by key; the model lists them in
first-occurrence order.  Every property proved below is per-key and
independent of the bucket order, and the final output is re-sorted by
product name on both sides. -/
def aggregate (rows : List MidRow) : List Bucket :=
  (dedupKeys (rows.map groupKey)).map (mkBucket rows)

/-! ### Output formatting (main.py lines 178-208) -/

/-- The regex replace of main.py line 188: drop one trailing ".0". -/
def stripDotZero (s : String) : String :=
  match s.toList.reverse with
  | '0' :: '.' :: rest => String.mk rest.reverse
  | _ => s

/-- One output row: the populated primary slot group of the fixed ERP
schema plus the non-persisted fallback flag.  The four secondary slot
groups and the five voucher-remark columns are the constant empty string
(main.py lines 194-199) and are not repeated here. -/
structure OutputRow where
  date : Option String
  cpty : String
  code : String
  name : Option String
  qty : ℤ
  price : ℤ
  remark : String
  fb : Bool
deriving DecidableEq

/-- Assembly of one output row from a bucket (main.py lines 181-203).  The
unit price column is integral already, so its `round().astype(int)` is the
identity and the value is carried unchanged. -/
def mkOutputRow (b : Bucket) : OutputRow :=
  { date := b.date_first,
    cpty := b.cpty_first,
    code := stripDotZero b.code,
    name := b.name_first,
    qty := roundHalfEven b.qty_sum,
    price := b.price,
    remark := b.remark_first,
    fb := b.fb_any }

/-- Insertion into a list sorted by `le`. -/
def insertLe {α : Type} (le : α → α → Bool) (a : α) : List α → List α
  | [] => [a]
  | b :: l => if le a b then a :: b :: l else b :: insertLe le a l

/-- Insertion sort by `le`, the model of the final
`sort_values(by = name, key = _name_sort_key)` (main.py line 206).  pandas
sorts with numpy quicksort, whose order on tied keys is not specified; the
model fixes one concrete order among ties. -/
def sortLe {α : Type} (le : α → α → Bool) : List α → List α
  | [] => []
  | a :: l => insertLe le a (sortLe le l)

/-- The sort key of an output row: the stringified, lower-cased product
name. -/
def outRowKey (r : OutputRow) : String :=
  name_sort_key r.name

/-- The final sort of the result table by lower-cased product name. -/
def sortOutput (rows : List OutputRow) : List OutputRow :=
  sortLe (fun a b => strLe (outRowKey a) (outRowKey b)) rows

/-- `build_result` (main.py lines 89-208) from the two typed tables (the
Excel reads themselves are external collaborators): resolve the required
columns of both tables, left-join on the normalized option id, coerce
numbers, resolve fallbacks, price, aggregate, format and sort. -/
def build_result (dfMain dfMap : DF) : Except BuildErr (List OutputRow) := do
  let mc ← resolve_main dfMain
  let pc ← resolve_map dfMap
  let joined := leftMerge dfMain.rows dfMap.rows
      (fun r => norm (py_str (getCell dfMain r mc.optid)))
      (fun m => norm (py_str (getCell dfMap m pc.optid2)))
  let mids ← exceptMap (mkMid dfMain dfMap mc pc) joined
  .ok (sortOutput ((aggregate mids).map mkOutputRow))

/-! ### Sample data and auxiliary definitions used by the theorems -/

deriving instance DecidableEq for Except

/-- The grouping key carried by a bucket. -/
def bKey (b : Bucket) : String × ℤ × Bool :=
  (b.code, b.price, b.neg)

/-- Two mid-table rows sharing one grouping key, used as concrete input. -/
def sampleMidRows : List MidRow :=
  [⟨some "2024-01-01", "쿠팡-제트배송", "C1", some "N", 2, 5, "", false, false⟩,
   ⟨none, "쿠팡-제트배송", "C1", some "M", 3, 5, "", true, false⟩]

/-- A concrete transaction table used as concrete input. -/
def dfMainSample : DF :=
  ⟨["옵션ID", "매출인식일", "판매 수량", "정산대상액", "등록상품명"],
   [[some "A1", some "2024-01-01", some "3", some "-300", some "Widget"],
    [some "A2", some "2024-01-02", some "1", some "50", some "Gadget"]]⟩

/-- A concrete mapping table used as concrete input. -/
def dfMapSample : DF :=
  ⟨["옵션ID", "코드", "윈윈상품명"], [[some "a1", some "C1", some "Win Widget"]]⟩

/-- A table whose single column matches no keyword, used as concrete
input. -/
def dfBadSample : DF :=
  ⟨["x"], []⟩

/-- The output of `build_result` on the sample tables. -/
def sampleOut : List OutputRow :=
  [⟨some "2024-01-02", "쿠팡-제트배송", "A2", some "Gadget", 1, 50, "", true⟩,
   ⟨some "2024-01-01", "쿠팡-제트배송", "C1", some "Win Widget", 3, 100, "", false⟩]

/-! ### Lemmas about the executable rational operations -/

theorem qAdd_eq (a b : ℚ) : qAdd a b = a + b :=
  (Rat.add_def' a b).symm

theorem qSub_eq (a b : ℚ) : qSub a b = a - b :=
  (Rat.sub_def' a b).symm

theorem qDiv_eq (a b : ℚ) : qDiv a b = a / b := by
  unfold qDiv
  rw [Rat.divInt_eq_div]
  rcases eq_or_ne b 0 with hb | hb
  · subst hb
    simp
  · have had : ((a.den : ℚ)) ≠ 0 := Nat.cast_ne_zero.mpr a.den_nz
    have hbd : ((b.den : ℚ)) ≠ 0 := Nat.cast_ne_zero.mpr b.den_nz
    have hbn : ((b.num : ℚ)) ≠ 0 := Int.cast_ne_zero.mpr (Rat.num_ne_zero.mpr hb)
    have ha : (a.num : ℚ) = a * (a.den : ℚ) := (div_eq_iff had).mp (Rat.num_div_den a)
    have hbnum : (b.num : ℚ) = b * (b.den : ℚ) := (div_eq_iff hbd).mp (Rat.num_div_den b)
    have hdenom : ((a.den * b.num : ℤ) : ℚ) ≠ 0 := by
      push_cast
      exact mul_ne_zero (by exact_mod_cast had) hbn
    rw [div_eq_div_iff hdenom hb]
    push_cast
    rw [ha, hbnum]
    ring

theorem qAbs_eq (a : ℚ) : qAbs a = |a| := by
  unfold qAbs
  have hneg : Rat.neg a = -a := rfl
  rcases lt_or_le a 0 with h | h
  · rw [if_pos h, hneg, abs_of_neg h]
  · rw [if_neg (not_lt.mpr h), abs_of_nonneg h]

theorem qSum_eq (l : List ℚ) : qSum l = l.sum := by
  induction l with
  | nil => rfl
  | cons a t ih => simp [qSum, List.foldr_cons, qAdd_eq] at ih ⊢; rw [ih]

/-! ### Character-level lemmas -/

theorem charToNat_inj {a b : Char} (h : a.toNat = b.toNat) : a = b :=
  Char.eq_of_val_eq (UInt32.ext h)

theorem toNat_lowerChar (c : Char) (h1 : 65 ≤ c.toNat) (h2 : c.toNat ≤ 90) :
    (lowerChar c).toNat = c.toNat + 32 := by
  unfold lowerChar
  rw [if_pos ⟨h1, h2⟩]
  have hv : Nat.isValidChar (c.toNat + 32) := Or.inl (by omega)
  simp only [Char.ofNat, Char.ofNatAux, Char.toNat, UInt32.ofNat']
  split
  · simp [UInt32.toNat, BitVec.toNat_ofNatLt]
  · next hnv => exact absurd hv hnv

theorem lowerChar_eq_self (c : Char) (h : ¬(65 ≤ c.toNat ∧ c.toNat ≤ 90)) :
    lowerChar c = c :=
  if_neg h

theorem lowerChar_lowerChar (c : Char) : lowerChar (lowerChar c) = lowerChar c := by
  by_cases h : 65 ≤ c.toNat ∧ c.toNat ≤ 90
  · have ht : (lowerChar c).toNat = c.toNat + 32 := toNat_lowerChar c h.1 h.2
    exact lowerChar_eq_self _ (by omega)
  · rw [lowerChar_eq_self c h]
    exact lowerChar_eq_self c h

theorem not_ws_of_toNat (c : Char) (h : 33 ≤ c.toNat) : c.isWhitespace = false := by
  have hsp : c ≠ ' ' := fun he => by rw [he] at h; exact absurd h (by decide)
  have hta : c ≠ '\t' := fun he => by rw [he] at h; exact absurd h (by decide)
  have hcr : c ≠ '\r' := fun he => by rw [he] at h; exact absurd h (by decide)
  have hnl : c ≠ '\n' := fun he => by rw [he] at h; exact absurd h (by decide)
  simp [Char.isWhitespace, hsp, hta, hcr, hnl]

theorem not_special_of_toNat (c : Char) (h : c.toNat ≤ 1000) :
    (!(c == zwspChar || c == bomChar)) = true := by
  have h1 : c ≠ zwspChar := fun he => by rw [he] at h; exact absurd h (by decide)
  have h2 : c ≠ bomChar := fun he => by rw [he] at h; exact absurd h (by decide)
  simp [h1, h2]

theorem map_self {f : Char → Char} : ∀ l : List Char, (∀ c ∈ l, f c = c) → l.map f = l := by
  intro l
  induction l with
  | nil => intro _; rfl
  | cons a t ih =>
    intro h
    simp only [List.map_cons]
    rw [h a (List.mem_cons_self a t), ih (fun c hc => h c (List.mem_cons_of_mem a hc))]

theorem mem_normChars {l : List Char} {c : Char} (h : c ∈ normChars l) :
    (!(c == zwspChar || c == bomChar)) = true ∧ (!c.isWhitespace) = true ∧
      lowerChar c = c := by
  unfold normChars at h
  rcases List.mem_map.mp h with ⟨d, hd, rfl⟩
  rcases List.mem_filter.mp hd with ⟨hd1, hp2⟩
  rcases List.mem_filter.mp hd1 with ⟨-, hp1⟩
  by_cases hc : 65 ≤ d.toNat ∧ d.toNat ≤ 90
  · have ht : (lowerChar d).toNat = d.toNat + 32 := toNat_lowerChar d hc.1 hc.2
    refine ⟨not_special_of_toNat _ (by omega), ?_, lowerChar_lowerChar d⟩
    rw [not_ws_of_toNat _ (by omega)]
    rfl
  · rw [lowerChar_eq_self d hc]
    exact ⟨hp1, hp2, lowerChar_eq_self d hc⟩

theorem normChars_idem (l : List Char) : normChars (normChars l) = normChars l := by
  have h := fun c hc => mem_normChars (l := l) (c := c) hc
  have e1 : (normChars l).filter (fun c => !(c == zwspChar || c == bomChar)) = normChars l :=
    List.filter_eq_self.mpr (fun c hc => (h c hc).1)
  have e2 : (normChars l).filter (fun c => !c.isWhitespace) = normChars l :=
    List.filter_eq_self.mpr (fun c hc => (h c hc).2.1)
  have e3 : (normChars l).map lowerChar = normChars l :=
    map_self _ (fun c hc => (h c hc).2.2)
  calc normChars (normChars l)
      = (((normChars l).filter (fun c => !(c == zwspChar || c == bomChar))).filter
            (fun c => !c.isWhitespace)).map lowerChar := rfl
    _ = ((normChars l).filter (fun c => !c.isWhitespace)).map lowerChar := by rw [e1]
    _ = (normChars l).map lowerChar := by rw [e2]
    _ = normChars l := e3

/-- C9: key normalization is idempotent: for every text `x`,
`norm (norm x) = norm x`, where `norm` strips zero-width-space and BOM
characters, removes all whitespace and lower-cases. -/
theorem norm_idempotent (s : String) : norm (norm s) = norm s :=
  congrArg String.mk (normChars_idem s.toList)

/-- C1: the unit price is computed from the absolute amount: if `|q| > 1`
then `price = round (|a| / |q|)`, otherwise `price = round |a|`, returned as
an integer; in particular `price 100 1 = 100`, `price (-150) 3 = 50` and
`price 7 0 = 7` (quantity 0 takes the non-division branch), with ties
rounded half to even (`round (5/2) = 2`, `round (7/2) = 4`). -/
theorem unitPrice_spec :
    (∀ a q : ℚ, unitPrice a q =
      if 1 < |q| then roundHalfEven (|a| / |q|) else roundHalfEven |a|)
    ∧ unitPrice 100 1 = 100 ∧ unitPrice (-150) 3 = 50 ∧ unitPrice 7 0 = 7
    ∧ unitPrice 5 2 = 2
    ∧ roundHalfEven (mkRat 5 2) = 2 ∧ roundHalfEven (mkRat 7 2) = 4 := by
  refine ⟨fun a q => ?_, by decide, by decide, by decide, by decide, by decide, by decide⟩
  simp only [unitPrice, qAbs_eq, qDiv_eq]
  rw [apply_ite roundHalfEven]

/-- C3: a joined record is flagged fallback iff its mapped name is null or
empty after stringification and whitespace trimming; a flagged record's
final code is the stringified raw option identifier and its final name is
the transaction's registered product name, while an unflagged record takes
both code and name from the mapping side. -/
theorem fallback_spec (mapped_name mapped_code raw_optid reg_name : Option String) :
    (fallback_mask mapped_name = true ↔
      (mapped_name = none ∨ strTrim (py_str mapped_name) = ""))
    ∧ (fallback_mask mapped_name = true →
        final_code mapped_name mapped_code raw_optid = some (py_str raw_optid) ∧
        final_name mapped_name reg_name = reg_name)
    ∧ (fallback_mask mapped_name = false →
        final_code mapped_name mapped_code raw_optid = mapped_code ∧
        final_name mapped_name reg_name = mapped_name) := by
  refine ⟨?_, fun h => ?_, fun h => ?_⟩
  · unfold fallback_mask
    cases mapped_name <;> simp
  · simp [final_code, final_name, h]
  · simp [final_code, final_name, h]

/-- Witness for C3: a record with no mapped name is flagged and takes the
stringified raw identifier and the registered name; a record with mapped
name "Win" is unflagged and keeps the mapping side's code and name. -/
theorem fallback_spec_witness :
    (final_code none (some "C9") (some "A7") = some "A7" ∧
      final_name none (some "Reg") = some "Reg") ∧
    (final_code (some "Win") (some "C9") (some "A7") = some "C9" ∧
      final_name (some "Win") (some "Reg") = some "Win") :=
  ⟨(fallback_spec none (some "C9") (some "A7") (some "Reg")).2.1 (by decide),
   (fallback_spec (some "Win") (some "C9") (some "A7") (some "Reg")).2.2 (by decide)⟩

/-- `List.find?` returns the element at the first index satisfying the
predicate. -/
theorem find?_eq_of_first {α : Type} (p : α → Bool) (l : List α) (d : α) (i : Nat)
    (hi : i < l.length) (hp : p (l.getD i d) = true)
    (hprev : ∀ j, j < i → p (l.getD j d) = false) :
    l.find? p = some (l.getD i d) := by
  induction l generalizing i with
  | nil => simp at hi
  | cons a t ih =>
    cases i with
    | zero =>
      simp only [List.getD_cons_zero] at hp ⊢
      rw [List.find?_cons_of_pos _ hp]
    | succ n =>
      have ha : p a = false := by simpa using hprev 0 (Nat.succ_pos n)
      rw [List.find?_cons_of_neg _ (by simp [ha])]
      simp only [List.getD_cons_succ] at hp ⊢
      exact ih n (by simpa using hi) hp
        (fun j hj => by simpa using hprev (j + 1) (Nat.succ_lt_succ hj))

/-- C5 counterexample: with columns `["수량합계", "판매수량"]` and keywords
`("판매수량", "수량")`, the code returns the column "수량합계", whose
normalized label does not contain the primary keyword "판매수량", even
though the column "판매수량" does contain it — so an earlier keyword does
not take priority over a later one. -/
theorem find_col_counterexample :
    find_col ⟨["수량합계", "판매수량"], []⟩ ["판매수량", "수량"] = .ok "수량합계"
    ∧ strContains (norm "수량합계") (norm "판매수량") = false
    ∧ strContains (norm "판매수량") (norm "판매수량") = true := by
  decide

/-- C5 (amended): column resolution scans the columns in table order; it
returns the first column whose normalized label contains the normalization
of at least one of the candidate keywords — column order, not keyword
order, takes priority. -/
theorem find_col_spec (df : DF) (kws : List String) (i : Nat)
    (hi : i < df.cols.length)
    (hmatch : (kws.any (fun kw => strContains (norm (df.cols.getD i "")) (norm kw))) = true)
    (hearlier : ∀ j, j < i →
      (kws.any (fun kw => strContains (norm (df.cols.getD j "")) (norm kw))) = false) :
    find_col df kws = .ok (df.cols.getD i "") := by
  unfold find_col
  rw [find?_eq_of_first (fun c => kws.any (fun kw => strContains (norm c) (norm kw)))
      df.cols "" i hi hmatch hearlier]

/-- Witness for C5: the second column "판매수량" is returned when the first
column matches no keyword. -/
theorem find_col_spec_witness :
    find_col ⟨["날짜", "판매수량"], []⟩ ["판매수량", "수량"] = .ok "판매수량" :=
  find_col_spec ⟨["날짜", "판매수량"], []⟩ ["판매수량", "수량"] 1
    (by decide) (by decide) (by decide)

/-- C4: header detection returns the smallest row index `k` within the
first `min searchRows (raw.length)` rows such that some normalized keyword
is a substring of some normalized cell of row `k`; if no row in the window
matches, it returns 0. -/
theorem header_idx_spec (raw : List (List (Option String))) (kws : List String)
    (searchRows : Nat) :
    (∀ k, k < min searchRows raw.length →
      rowMatches (kws.map norm) (raw.getD k []) = true →
      (∀ j, j < k → rowMatches (kws.map norm) (raw.getD j []) = false) →
      header_idx raw kws searchRows = k)
    ∧ ((∀ i, i < min searchRows raw.length →
        rowMatches (kws.map norm) (raw.getD i []) = false) →
      header_idx raw kws searchRows = 0) := by
  have hex : header_idx raw kws searchRows =
      ((List.range (min searchRows raw.length)).find?
        (fun i => rowMatches (kws.map norm) (raw.getD i []))).getD 0 := rfl
  have hrange : ∀ j, j < min searchRows raw.length →
      (List.range (min searchRows raw.length)).getD j 0 = j := by
    intro j hj
    rw [List.getD_eq_getElem?_getD, List.getElem?_range hj, Option.getD_some]
  constructor
  · intro k hk hmatch hprev
    have hfind := find?_eq_of_first
        (fun i => rowMatches (kws.map norm) (raw.getD i []))
        (List.range (min searchRows raw.length)) 0 k
        (by rw [List.length_range]; exact hk)
        (by rw [hrange k hk]; exact hmatch)
        (fun j hj => by rw [hrange j (lt_trans hj hk)]; exact hprev j hj)
    rw [hex, hfind, hrange k hk, Option.getD_some]
  · intro hall
    rw [hex, List.find?_eq_none.mpr
        (fun x hx hc => by
          rw [hall x (List.mem_range.mp hx)] at hc
          exact Bool.false_ne_true hc)]
    rfl

/-- Witness for C4: the keyword "옵션id" first matches (after
normalization) in row 1 of a three-row grid, so the header index is 1. -/
theorem header_idx_spec_witness :
    header_idx [[some "junk"], [some "옵션 ID", none], [some "옵션id"]] ["옵션id"] 50 = 1 :=
  (header_idx_spec [[some "junk"], [some "옵션 ID", none], [some "옵션id"]] ["옵션id"] 50).1
    1 (by decide) (by decide) (by decide)

theorem leftMerge_length {α β : Type} (mainRows : List α) (mapRows : List β)
    (mainKey : α → String) (mapKey : β → String) :
    (leftMerge mainRows mapRows mainKey mapKey).length =
      (mainRows.map (fun r =>
        max 1 ((mapRows.filter (fun m => mapKey m == mainKey r)).length))).sum := by
  induction mainRows with
  | nil => rfl
  | cons r rest ih =>
    simp only [leftMerge, List.flatMap_cons, List.length_append, List.map_cons,
      List.sum_cons] at ih ⊢
    rw [ih]
    congr 1
    by_cases hms : (mapRows.filter (fun m => mapKey m == mainKey r)).isEmpty
    · rw [if_pos hms]
      have h0 : (mapRows.filter (fun m => mapKey m == mainKey r)).length = 0 := by
        rw [List.isEmpty_iff] at hms
        rw [hms]
        rfl
      rw [h0]
      rfl
    · rw [if_neg hms, List.length_map]
      have hpos : 0 < (mapRows.filter (fun m => mapKey m == mainKey r)).length := by
        rcases Nat.eq_zero_or_pos (mapRows.filter (fun m => mapKey m == mainKey r)).length
          with h0 | h
        · exact absurd (List.isEmpty_iff.mpr (List.length_eq_zero.mp h0)) hms
        · exact h
      exact (Nat.max_eq_right hpos).symm

theorem leftMerge_mem {α β : Type} (mainRows : List α) (mapRows : List β)
    (mainKey : α → String) (mapKey : β → String) :
    ∀ p ∈ leftMerge mainRows mapRows mainKey mapKey,
      p.1 ∈ mainRows
      ∧ (p.2 = none → ∀ m ∈ mapRows, mapKey m ≠ mainKey p.1)
      ∧ (∀ m, p.2 = some m → m ∈ mapRows ∧ mapKey m = mainKey p.1) := by
  intro p hp
  simp only [leftMerge, List.mem_flatMap] at hp
  rcases hp with ⟨r, hr, hblock⟩
  by_cases hms : (mapRows.filter (fun m => mapKey m == mainKey r)).isEmpty
  · rw [if_pos hms] at hblock
    have hpe : p = (r, none) := List.mem_singleton.mp hblock
    subst hpe
    refine ⟨hr, fun _ m hm heq => ?_, fun m0 hm0 => nomatch hm0⟩
    have hmem : m ∈ mapRows.filter (fun m => mapKey m == mainKey r) :=
      List.mem_filter.mpr ⟨hm, beq_iff_eq.mpr heq⟩
    rw [List.isEmpty_iff.mp hms] at hmem
    exact absurd hmem (List.not_mem_nil m)
  · rw [if_neg hms] at hblock
    rcases List.mem_map.mp hblock with ⟨m, hmfil, hpe⟩
    subst hpe
    rcases List.mem_filter.mp hmfil with ⟨hmm, hbeq⟩
    refine ⟨hr, fun hcon => Option.noConfusion hcon, fun m0 hm0 => ?_⟩
    have hm0e : m = m0 := by injection hm0
    subst hm0e
    exact ⟨hmm, beq_iff_eq.mp hbeq⟩

theorem leftMerge_unmatched {α β : Type} (mainRows : List α) (mapRows : List β)
    (mainKey : α → String) (mapKey : β → String) :
    ∀ r ∈ mainRows, (∀ m ∈ mapRows, mapKey m ≠ mainKey r) →
      (r, (none : Option β)) ∈ leftMerge mainRows mapRows mainKey mapKey := by
  intro r hr hno
  simp only [leftMerge, List.mem_flatMap]
  refine ⟨r, hr, ?_⟩
  have hnil : mapRows.filter (fun m => mapKey m == mainKey r) = [] := by
    rw [List.filter_eq_nil_iff]
    intro m hm
    simp [hno m hm]
  rw [hnil]
  simp

/-- C2 counterexample: a main table with one row joined against a mapping
table with two rows of equal normalized key produces two joined records,
not one per main row — the mapping side is not deduplicated and the join is
not first-match. -/
theorem leftMerge_counterexample :
    (leftMerge ["A1"] [("a1", "C1"), ("A 1", "C2")]
        (fun r => norm r) (fun m => norm m.1)).length = 2
    ∧ ¬ ((leftMerge ["A1"] [("a1", "C1"), ("A 1", "C2")]
        (fun r => norm r) (fun m => norm m.1)).length
          = (["A1"] : List String).length) := by
  decide

/-- C2 (amended): the join of the main table against the mapping table on
the normalized key is a left outer join without deduplication of the
mapping side: each main row yields one joined record per matching mapping
row (each carrying that mapping row's columns), so the output length is the
sum over main rows of `max 1 (number of key matches)`; a joined record's
mapping side is a mapping row with equal normalized key, or null exactly
when no mapping row's normalized key matches, and every unmatched main row
yields its null-carrying record. -/
theorem leftMerge_spec {α β : Type} (mainRows : List α) (mapRows : List β)
    (mainKey : α → String) (mapKey : β → String) :
    ((leftMerge mainRows mapRows mainKey mapKey).length =
      (mainRows.map (fun r =>
        max 1 ((mapRows.filter (fun m => mapKey m == mainKey r)).length))).sum)
    ∧ (∀ p ∈ leftMerge mainRows mapRows mainKey mapKey,
        p.1 ∈ mainRows
        ∧ (p.2 = none → ∀ m ∈ mapRows, mapKey m ≠ mainKey p.1)
        ∧ (∀ m, p.2 = some m → m ∈ mapRows ∧ mapKey m = mainKey p.1))
    ∧ (∀ r ∈ mainRows, (∀ m ∈ mapRows, mapKey m ≠ mainKey r) →
        (r, (none : Option β)) ∈ leftMerge mainRows mapRows mainKey mapKey) :=
  ⟨leftMerge_length mainRows mapRows mainKey mapKey,
   leftMerge_mem mainRows mapRows mainKey mapKey,
   leftMerge_unmatched mainRows mapRows mainKey mapKey⟩

/-- Witness for C2: the unmatched main row "B2" yields its null-carrying
joined record. -/
theorem leftMerge_spec_witness :
    ("B2", (none : Option (String × String))) ∈
      leftMerge ["A1", "B2"] [("a1", "C1")] (fun r => norm r) (fun m => norm m.1) :=
  (leftMerge_spec ["A1", "B2"] [("a1", "C1")] (fun r => norm r) (fun m => norm m.1)).2.2
    "B2" (by decide) (by decide)

/-! ### Aggregation lemmas and C7 -/

theorem mem_dedupAux (k : String × ℤ × Bool) :
    ∀ (l seen : List (String × ℤ × Bool)),
      (k ∈ dedupAux seen l ↔ k ∈ l ∧ k ∉ seen) := by
  intro l
  induction l with
  | nil => intro seen; simp [dedupAux]
  | cons a t ih =>
    intro seen
    rw [show dedupAux seen (a :: t)
        = if a ∈ seen then dedupAux seen t else a :: dedupAux (a :: seen) t from rfl]
    by_cases ha : a ∈ seen
    · rw [if_pos ha, ih seen]
      constructor
      · rintro ⟨hkt, hks⟩
        exact ⟨List.mem_cons_of_mem a hkt, hks⟩
      · rintro ⟨hk, hks⟩
        rcases List.mem_cons.mp hk with rfl | hkt
        · exact absurd ha hks
        · exact ⟨hkt, hks⟩
    · rw [if_neg ha]
      constructor
      · intro hk
        rcases List.mem_cons.mp hk with rfl | hk2
        · exact ⟨List.mem_cons_self _ _, ha⟩
        · rcases (ih (a :: seen)).mp hk2 with ⟨hkt, hks⟩
          exact ⟨List.mem_cons_of_mem a hkt,
            fun hs => hks (List.mem_cons_of_mem a hs)⟩
      · rintro ⟨hk, hks⟩
        rcases List.mem_cons.mp hk with rfl | hkt
        · exact List.mem_cons_self _ _
        · by_cases hka : k = a
          · subst hka
            exact List.mem_cons_self _ _
          · refine List.mem_cons_of_mem a ((ih (a :: seen)).mpr ⟨hkt, fun hmem => ?_⟩)
            rcases List.mem_cons.mp hmem with h1 | h2
            · exact hka h1
            · exact hks h2

theorem nodup_dedupAux :
    ∀ (l seen : List (String × ℤ × Bool)), (dedupAux seen l).Nodup := by
  intro l
  induction l with
  | nil => intro seen; exact List.nodup_nil
  | cons a t ih =>
    intro seen
    rw [show dedupAux seen (a :: t)
        = if a ∈ seen then dedupAux seen t else a :: dedupAux (a :: seen) t from rfl]
    by_cases ha : a ∈ seen
    · rw [if_pos ha]
      exact ih seen
    · rw [if_neg ha]
      refine List.nodup_cons.mpr ⟨fun hmem => ?_, ih (a :: seen)⟩
      exact ((mem_dedupAux a t (a :: seen)).mp hmem).2 (List.mem_cons_self a seen)

theorem mem_dedupKeys (l : List (String × ℤ × Bool)) (k : String × ℤ × Bool) :
    k ∈ dedupKeys l ↔ k ∈ l := by
  unfold dedupKeys
  rw [mem_dedupAux]
  simp

theorem nodup_dedupKeys (l : List (String × ℤ × Bool)) : (dedupKeys l).Nodup :=
  nodup_dedupAux l []

theorem filter_map_comm {γ δ : Type} (f : γ → δ) (p : δ → Bool) (l : List γ) :
    (l.map f).filter p = (l.filter (fun x => p (f x))).map f := by
  induction l with
  | nil => rfl
  | cons a t ih => by_cases h : p (f a) <;> simp [List.filter_cons, h, ih]

theorem filter_eq_of_nodup {γ : Type} [DecidableEq γ] (l : List γ) (hl : l.Nodup)
    (k : γ) : l.filter (fun x => decide (x = k)) = if k ∈ l then [k] else [] := by
  induction l with
  | nil => simp
  | cons a t ih =>
    rcases List.nodup_cons.mp hl with ⟨hat, ht⟩
    rw [List.filter_cons]
    by_cases hak : a = k
    · subst hak
      rw [if_pos (by simp), ih ht, if_neg hat, if_pos (List.mem_cons_self a t)]
    · rw [if_neg (by simp [hak]), ih ht]
      by_cases hkt : k ∈ t
      · rw [if_pos hkt, if_pos (List.mem_cons_of_mem a hkt)]
      · rw [if_neg hkt, if_neg (by
          intro hmem
          rcases List.mem_cons.mp hmem with h1 | h2
          · exact hak h1.symm
          · exact hkt h2)]

theorem bKey_mkBucket (rows : List MidRow) (k : String × ℤ × Bool) :
    bKey (mkBucket rows k) = k :=
  rfl

/-- C7 counterexample: two rows sharing one grouping key, the first with a
null date; the single bucket's date column is the SECOND row's date (pandas
`first` skips nulls), not the first-seen value in original row order, which
is null. -/
theorem aggregate_counterexample :
    ((aggregate
        [⟨none, "쿠팡-제트배송", "C1", some "N", 1, 5, "", false, false⟩,
         ⟨some "d", "쿠팡-제트배송", "C1", some "N", 1, 5, "", false, false⟩]).map
       Bucket.date_first) = [some "d"]
    ∧ (([⟨none, "쿠팡-제트배송", "C1", some "N", 1, 5, "", false, false⟩,
         ⟨some "d", "쿠팡-제트배송", "C1", some "N", 1, 5, "", false, false⟩] :
          List MidRow).map MidRow.date).headD none = none := by
  decide

/-- C7 (amended): for every record list the sum of quantities over all
buckets sharing a given grouping-key value equals the sum of quantities of
the records with that key — no record dropped or double counted; each
bucket's fallback flag is the OR of its members' flags, and each non-summed
field holds the first NON-NULL value of its group in original row order
(pandas `first` skips nulls; for the never-null constant columns this is
the leading entry). -/
theorem aggregate_spec (rows : List MidRow) :
    (∀ k : String × ℤ × Bool,
      qSum (((aggregate rows).filter (fun b => decide (bKey b = k))).map Bucket.qty_sum)
        = qSum ((rows.filter (fun r => decide (groupKey r = k))).map MidRow.qty))
    ∧ (∀ b ∈ aggregate rows,
        b.name_first = firstSome ((groupOf rows (bKey b)).map MidRow.name)
        ∧ b.date_first = firstSome ((groupOf rows (bKey b)).map MidRow.date)
        ∧ b.cpty_first = ((groupOf rows (bKey b)).map MidRow.cpty).headD ""
        ∧ b.remark_first = ((groupOf rows (bKey b)).map MidRow.remark).headD ""
        ∧ b.fb_any = (groupOf rows (bKey b)).any MidRow.fb) := by
  constructor
  · intro k
    have hfm : ((aggregate rows).filter (fun b => decide (bKey b = k)))
        = ((dedupKeys (rows.map groupKey)).filter
            (fun k2 => decide (k2 = k))).map (mkBucket rows) := by
      unfold aggregate
      rw [filter_map_comm]
      congr 1
    rw [hfm, filter_eq_of_nodup _ (nodup_dedupKeys _) k]
    by_cases hk : k ∈ dedupKeys (rows.map groupKey)
    · rw [if_pos hk]
      show qSum [(mkBucket rows k).qty_sum] = _
      rw [qSum_eq, qSum_eq]
      simp only [List.sum_cons, List.sum_nil, add_zero]
      show qSum ((groupOf rows k).map MidRow.qty) = _
      rw [qSum_eq]
      rfl
    · rw [if_neg hk]
      have hnil : rows.filter (fun r => decide (groupKey r = k)) = [] := by
        rw [List.filter_eq_nil_iff]
        intro r hr hdec
        exact hk ((mem_dedupKeys _ _).mpr
          (List.mem_map.mpr ⟨r, hr, of_decide_eq_true hdec⟩))
      rw [hnil]
      rfl
  · intro b hb
    rcases List.mem_map.mp hb with ⟨k, _, hbe⟩
    subst hbe
    rw [bKey_mkBucket]
    exact ⟨rfl, rfl, rfl, rfl, rfl⟩

/-- Witness for C7: the bucket of the sample group reports the OR of its
members' fallback flags. -/
theorem aggregate_spec_witness :
    (mkBucket sampleMidRows ("C1", 5, false)).fb_any
      = (groupOf sampleMidRows (bKey (mkBucket sampleMidRows ("C1", 5, false)))).any
          MidRow.fb :=
  ((aggregate_spec sampleMidRows).2 (mkBucket sampleMidRows ("C1", 5, false))
    (by decide)).2.2.2.2

/-! ### The error path (C8) -/

theorem except_bind_error {ε α β : Type} (e : ε) (f : α → Except ε β) :
    (Except.error e >>= f) = .error e :=
  rfl

theorem except_bind_ok {ε α β : Type} (a : α) (f : α → Except ε β) :
    (Except.ok a >>= f) = f a :=
  rfl

theorem find_col_error_shape (df : DF) (kws : List String) (e : BuildErr)
    (h : find_col df kws = .error e) : e = .colNotFound kws df.cols := by
  unfold find_col at h
  rcases hfind : df.cols.find?
      (fun c => kws.any (fun kw => strContains (norm c) (norm kw))) with _ | c <;>
    rw [hfind] at h
  · injection h with he
    exact he.symm
  · exact Except.noConfusion h

theorem find_col_none (df : DF) (kws : List String)
    (h : ∀ c ∈ df.cols, ∀ kw ∈ kws, strContains (norm c) (norm kw) = false) :
    find_col df kws = .error (.colNotFound kws df.cols) := by
  unfold find_col
  rw [List.find?_eq_none.mpr ?_]
  intro c hc hany
  rcases List.any_eq_true.mp hany with ⟨kw, hkw, hcon⟩
  rw [h c hc kw hkw] at hcon
  exact Bool.false_ne_true hcon

theorem resolve_main_ok_find (df : DF) (mc : MainCols)
    (h : resolve_main df = .ok mc) :
    ∀ kws ∈ mainKeywordSets, ∃ c, find_col df kws = .ok c := by
  unfold resolve_main at h
  rcases h1 : find_col df ["옵션id", "optionid"] with e1 | c1 <;>
    simp only [h1, except_bind_error, except_bind_ok] at h
  · exact Except.noConfusion h
  rcases h2 : find_col df ["매출인식일"] with e2 | c2 <;>
    simp only [h2, except_bind_error, except_bind_ok] at h
  · exact Except.noConfusion h
  rcases h3 : find_col df ["판매수량", "수량"] with e3 | c3 <;>
    simp only [h3, except_bind_error, except_bind_ok] at h
  · exact Except.noConfusion h
  rcases h4 : find_col df ["정산대상액", "정산 대상액"] with e4 | c4 <;>
    simp only [h4, except_bind_error, except_bind_ok] at h
  · exact Except.noConfusion h
  rcases h5 : find_col df ["등록상품명"] with e5 | c5 <;>
    simp only [h5, except_bind_error, except_bind_ok] at h
  · exact Except.noConfusion h
  intro kws hkws
  simp only [mainKeywordSets, List.mem_cons, List.not_mem_nil, or_false] at hkws
  rcases hkws with rfl | rfl | rfl | rfl | rfl
  · exact ⟨c1, h1⟩
  · exact ⟨c2, h2⟩
  · exact ⟨c3, h3⟩
  · exact ⟨c4, h4⟩
  · exact ⟨c5, h5⟩

theorem resolve_main_error_shape (df : DF) (e : BuildErr)
    (h : resolve_main df = .error e) :
    ∃ kws ∈ mainKeywordSets, e = .colNotFound kws df.cols := by
  unfold resolve_main at h
  rcases h1 : find_col df ["옵션id", "optionid"] with e1 | c1 <;>
    simp only [h1, except_bind_error, except_bind_ok] at h
  · injection h with he
    exact ⟨_, by simp [mainKeywordSets], find_col_error_shape df _ e (he ▸ h1)⟩
  rcases h2 : find_col df ["매출인식일"] with e2 | c2 <;>
    simp only [h2, except_bind_error, except_bind_ok] at h
  · injection h with he
    exact ⟨_, by simp [mainKeywordSets], find_col_error_shape df _ e (he ▸ h2)⟩
  rcases h3 : find_col df ["판매수량", "수량"] with e3 | c3 <;>
    simp only [h3, except_bind_error, except_bind_ok] at h
  · injection h with he
    exact ⟨_, by simp [mainKeywordSets], find_col_error_shape df _ e (he ▸ h3)⟩
  rcases h4 : find_col df ["정산대상액", "정산 대상액"] with e4 | c4 <;>
    simp only [h4, except_bind_error, except_bind_ok] at h
  · injection h with he
    exact ⟨_, by simp [mainKeywordSets], find_col_error_shape df _ e (he ▸ h4)⟩
  rcases h5 : find_col df ["등록상품명"] with e5 | c5 <;>
    simp only [h5, except_bind_error, except_bind_ok] at h
  · injection h with he
    exact ⟨_, by simp [mainKeywordSets], find_col_error_shape df _ e (he ▸ h5)⟩
  exact Except.noConfusion h

theorem resolve_map_ok_find (df : DF) (pc : MapCols)
    (h : resolve_map df = .ok pc) :
    ∀ kws ∈ mapKeywordSets, ∃ c, find_col df kws = .ok c := by
  unfold resolve_map at h
  rcases h1 : find_col df ["옵션id", "optionid"] with e1 | c1 <;>
    simp only [h1, except_bind_error, except_bind_ok] at h
  · exact Except.noConfusion h
  rcases h2 : find_col df ["코드", "상품코드"] with e2 | c2 <;>
    simp only [h2, except_bind_error, except_bind_ok] at h
  · exact Except.noConfusion h
  rcases h3 : find_col df ["윈윈상품명", "윈윈 상품명"] with e3 | c3 <;>
    simp only [h3, except_bind_error, except_bind_ok] at h
  · exact Except.noConfusion h
  intro kws hkws
  simp only [mapKeywordSets, List.mem_cons, List.not_mem_nil, or_false] at hkws
  rcases hkws with rfl | rfl | rfl
  · exact ⟨c1, h1⟩
  · exact ⟨c2, h2⟩
  · exact ⟨c3, h3⟩

theorem resolve_map_error_shape (df : DF) (e : BuildErr)
    (h : resolve_map df = .error e) :
    ∃ kws ∈ mapKeywordSets, e = .colNotFound kws df.cols := by
  unfold resolve_map at h
  rcases h1 : find_col df ["옵션id", "optionid"] with e1 | c1 <;>
    simp only [h1, except_bind_error, except_bind_ok] at h
  · injection h with he
    exact ⟨_, by simp [mapKeywordSets], find_col_error_shape df _ e (he ▸ h1)⟩
  rcases h2 : find_col df ["코드", "상품코드"] with e2 | c2 <;>
    simp only [h2, except_bind_error, except_bind_ok] at h
  · injection h with he
    exact ⟨_, by simp [mapKeywordSets], find_col_error_shape df _ e (he ▸ h2)⟩
  rcases h3 : find_col df ["윈윈상품명", "윈윈 상품명"] with e3 | c3 <;>
    simp only [h3, except_bind_error, except_bind_ok] at h
  · injection h with he
    exact ⟨_, by simp [mapKeywordSets], find_col_error_shape df _ e (he ▸ h3)⟩
  exact Except.noConfusion h

/-- C8: if a required semantic field of either table matches no column
under any of its keywords, `find_col` fails with a `colNotFound` error
carrying the attempted keywords and the full list of available column
labels, and the whole build returns a `colNotFound` error — no partial
output is produced (and the `Except`-valued pipeline performs no retry). -/
theorem column_not_found_aborts (dfMain dfMap df : DF) (kws : List String)
    (hdf : (df = dfMain ∧ kws ∈ mainKeywordSets) ∨ (df = dfMap ∧ kws ∈ mapKeywordSets))
    (hnone : ∀ c ∈ df.cols, ∀ kw ∈ kws, strContains (norm c) (norm kw) = false) :
    find_col df kws = .error (.colNotFound kws df.cols)
    ∧ ∃ kws2 cols2, build_result dfMain dfMap = .error (.colNotFound kws2 cols2) := by
  have hfail := find_col_none df kws hnone
  refine ⟨hfail, ?_⟩
  rcases hdf with ⟨rfl, hmem⟩ | ⟨rfl, hmem⟩
  · rcases hrm : resolve_main df with e | mc
    · rcases resolve_main_error_shape df e hrm with ⟨kws2, _, he⟩
      refine ⟨kws2, df.cols, ?_⟩
      unfold build_result
      rw [hrm, except_bind_error, he]
    · exfalso
      rcases resolve_main_ok_find df mc hrm kws hmem with ⟨c, hc⟩
      rw [hfail] at hc
      exact Except.noConfusion hc
  · rcases hrm : resolve_main dfMain with e | mc
    · rcases resolve_main_error_shape dfMain e hrm with ⟨kws2, _, he⟩
      refine ⟨kws2, dfMain.cols, ?_⟩
      unfold build_result
      rw [hrm, except_bind_error, he]
    · rcases hrp : resolve_map df with e | pc
      · rcases resolve_map_error_shape df e hrp with ⟨kws2, _, he⟩
        refine ⟨kws2, df.cols, ?_⟩
        unfold build_result
        rw [hrm, except_bind_ok]
        simp only [hrp, except_bind_error, he]
      · exfalso
        rcases resolve_map_ok_find df pc hrp kws hmem with ⟨c, hc⟩
        rw [hfail] at hc
        exact Except.noConfusion hc

/-- Witness for C8: a main table with a single unmatching column makes the
whole build fail with a `colNotFound` error. -/
theorem column_not_found_aborts_witness :
    find_col dfBadSample ["등록상품명"]
        = .error (.colNotFound ["등록상품명"] dfBadSample.cols)
    ∧ ∃ kws2 cols2, build_result dfBadSample dfMapSample
        = .error (.colNotFound kws2 cols2) :=
  column_not_found_aborts dfBadSample dfMapSample dfBadSample ["등록상품명"]
    (Or.inl ⟨rfl, by decide⟩) (by decide)

/-! ### The success path (C10) -/

theorem exceptMap_ok_mem {α β : Type} (f : α → Except BuildErr β)
    (xs : List α) (ys : List β) (h : exceptMap f xs = .ok ys) :
    ∀ y ∈ ys, ∃ x ∈ xs, f x = .ok y := by
  induction xs generalizing ys with
  | nil =>
    injection h with he
    subst he
    intro y hy
    exact absurd hy (List.not_mem_nil y)
  | cons x xs ih =>
    unfold exceptMap at h
    rcases h1 : f x with e | y0 <;>
      simp only [h1, except_bind_error, except_bind_ok] at h
    · exact Except.noConfusion h
    rcases h2 : exceptMap f xs with e | ys2 <;>
      simp only [h2, except_bind_error, except_bind_ok] at h
    · exact Except.noConfusion h
    injection h with he
    subst he
    intro y hy
    rcases List.mem_cons.mp hy with rfl | hy2
    · exact ⟨x, List.mem_cons_self _ _, h1⟩
    · rcases ih ys2 h2 y hy2 with ⟨x2, hx2, hf2⟩
      exact ⟨x2, List.mem_cons_of_mem x hx2, hf2⟩

theorem mkMid_cpty (dfMain dfMap : DF) (mc : MainCols) (pc : MapCols)
    (p : List (Option String) × Option (List (Option String))) (m : MidRow)
    (h : mkMid dfMain dfMap mc pc p = .ok m) : m.cpty = "쿠팡-제트배송" := by
  unfold mkMid at h
  rcases h1 : to_number (getCell dfMain p.1 mc.qty) with e | q <;>
    simp only [h1, except_bind_error, except_bind_ok] at h
  · exact Except.noConfusion h
  rcases h2 : to_number (getCell dfMain p.1 mc.price) with e | a <;>
    simp only [h2, except_bind_error, except_bind_ok] at h
  · exact Except.noConfusion h
  injection h with he
  rw [← he]

theorem mem_insertLe {α : Type} (le : α → α → Bool) (a x : α) :
    ∀ l : List α, x ∈ insertLe le a l → x = a ∨ x ∈ l := by
  intro l
  induction l with
  | nil =>
    intro h
    rcases List.mem_singleton.mp h with rfl
    exact Or.inl rfl
  | cons b t ih =>
    intro h
    unfold insertLe at h
    by_cases hle : le a b
    · rw [if_pos hle] at h
      rcases List.mem_cons.mp h with rfl | h2
      · exact Or.inl rfl
      · exact Or.inr h2
    · rw [if_neg hle] at h
      rcases List.mem_cons.mp h with rfl | h2
      · exact Or.inr (List.mem_cons_self _ _)
      · rcases ih h2 with h3 | h3
        · exact Or.inl h3
        · exact Or.inr (List.mem_cons_of_mem b h3)

theorem mem_sortLe {α : Type} (le : α → α → Bool) (x : α) :
    ∀ l : List α, x ∈ sortLe le l → x ∈ l := by
  intro l
  induction l with
  | nil => intro h; exact h
  | cons a t ih =>
    intro h
    rcases mem_insertLe le a x (sortLe le t) h with rfl | h2
    · exact List.mem_cons_self _ _
    · exact List.mem_cons_of_mem a (ih h2)

/-- C10: every output row of a successful `build_result` has the constant
counterparty "쿠팡-제트배송", regardless of the contents of the two input
tables. -/
theorem counterparty_constant (dfMain dfMap : DF) (out : List OutputRow)
    (h : build_result dfMain dfMap = .ok out) :
    ∀ row ∈ out, row.cpty = "쿠팡-제트배송" := by
  unfold build_result at h
  rcases h1 : resolve_main dfMain with e | mc <;>
    simp only [h1, except_bind_error, except_bind_ok] at h
  · exact Except.noConfusion h
  rcases h2 : resolve_map dfMap with e | pc <;>
    simp only [h2, except_bind_error, except_bind_ok] at h
  · exact Except.noConfusion h
  rcases h3 : exceptMap (mkMid dfMain dfMap mc pc)
      (leftMerge dfMain.rows dfMap.rows
        (fun r => norm (py_str (getCell dfMain r mc.optid)))
        (fun m => norm (py_str (getCell dfMap m pc.optid2)))) with e | mids <;>
    simp only [h3, except_bind_error, except_bind_ok] at h
  · exact Except.noConfusion h
  injection h with he
  subst he
  intro row hrow
  have hrow2 := mem_sortLe _ row _ hrow
  rcases List.mem_map.mp hrow2 with ⟨b, hb, hbe⟩
  subst hbe
  rcases List.mem_map.mp hb with ⟨k, hk, hbe2⟩
  subst hbe2
  have hkmem : k ∈ mids.map groupKey := (mem_dedupKeys _ _).mp hk
  rcases List.mem_map.mp hkmem with ⟨r, hr, hkr⟩
  have hrg : r ∈ groupOf mids k := List.mem_filter.mpr ⟨hr, by simp [hkr]⟩
  have hall : ∀ m2 ∈ mids, m2.cpty = "쿠팡-제트배송" := by
    intro m2 hm2
    rcases exceptMap_ok_mem _ _ _ h3 m2 hm2 with ⟨p, _, hok⟩
    exact mkMid_cpty _ _ _ _ p m2 hok
  show ((groupOf mids k).map MidRow.cpty).headD "" = _
  rcases hg : groupOf mids k with _ | ⟨r0, rest⟩
  · rw [hg] at hrg
    exact absurd hrg (List.not_mem_nil r)
  · have hr0 : r0 ∈ mids :=
      (List.mem_filter.mp (hg ▸ List.mem_cons_self r0 rest)).1
    simp only [List.map_cons, List.headD_cons]
    exact hall r0 hr0

/-- Witness for C10: the first output row of the sample build carries the
constant counterparty. -/
theorem counterparty_constant_witness :
    (⟨some "2024-01-02", "쿠팡-제트배송", "A2", some "Gadget", 1, 50, "", true⟩ :
        OutputRow).cpty = "쿠팡-제트배송" :=
  counterparty_constant dfMainSample dfMapSample sampleOut (by decide)
    ⟨some "2024-01-02", "쿠팡-제트배송", "A2", some "Gadget", 1, 50, "", true⟩
    (by decide)
